import Mathlib

/-!
Verification of pyIAST's `isotherms.py` (pure-component adsorption isotherms).

The Python source is shallowly embedded below: machine floats become real
numbers (`ℝ`), numpy arrays / pandas columns become `List ℝ`, a pandas
`DataFrame` becomes a list of named columns, and raised exceptions become
`Except PyError`.  Every definition follows the corresponding function of
`isotherms.py`; source line numbers are cited in comments.
-/

noncomputable section

/-- The exceptional outcomes the module can produce.  The Python source raises
plain `Exception`s (plus errors coming out of pandas / scipy); each distinct
raising site is modelled by its own constructor. -/
inductive PyError where
  /-- pandas `KeyError`: a column lookup `df[k]` with `k` not a column
  (in particular `k = None`). -/
  | keyError : PyError
  /-- `isotherms.py:134-136`: no model name supplied. -/
  | missingModel : PyError
  /-- `isotherms.py:137-139`: model name not in `_MODELS`. -/
  | unknownModel : PyError
  /-- `isotherms.py:147-150` and `isotherms.py:340-343`: loading/pressure
  column names not supplied. -/
  | missingColumnSpec : PyError
  /-- `isotherms.py:165-167`: a `param_guess` override key that is not a
  parameter of the chosen model. -/
  | invalidParameterName : String → PyError
  /-- pandas `ValueError` from `argmin`/`idxmin` of an empty sequence
  (`isotherms.py:50` when every loading is zero; raised under any pandas
  version). -/
  | emptyArgmin : PyError
  /-- `isotherms.py:242-247`: the nonlinear minimizer did not converge;
  carries the message of the raised exception. -/
  | optimizationFailure : String → PyError
  /-- evaluation beyond the data range with no `fill_value`: scipy's
  bounds error in `loading` (`isotherms.py:349-351`) and the explicit
  guard in `spreading_pressure` (`isotherms.py:390-411`). -/
  | outOfRange : PyError
  /-- positional-indexing `IndexError`: `loadings[0]` (`isotherms.py:422`)
  when the data has no sample at nonzero pressure, and the `.iloc[idx_min]`
  lookups of `isotherms.py:51-53` when the `idxmin` row label lies beyond the
  length of the filtered frame. -/
  | indexError : PyError
deriving DecidableEq

/-- `max` of a pandas numeric column (`df[key].max()`), as a fold. -/
def listMax : List ℝ → ℝ
  | [] => 0
  | x :: xs => xs.foldl max x

/-- `min` of a pandas numeric column (`df[key].min()`), as a fold. -/
def listMin : List ℝ → ℝ
  | [] => 0
  | x :: xs => xs.foldl min x

/-- One step of the `idxmin` scan over (label, value) pairs: a strictly
smaller value replaces the current best, so ties keep the first minimum's
label. -/
def idxminStep (acc y : ℕ × ℝ) : ℕ × ℝ :=
  if y.2 < acc.2 then y else acc

/-- pandas `Series.argmin` as it behaves on the pandas versions this Python-2
source can run on (pandas ≤ 0.19, before `df.sort` and `iteritems` were
removed): there `Series.argmin` is an alias of `idxmin` and returns the row
LABEL of the first minimum of the series, not its position; `none` models the
`ValueError` on an empty series.  The series is given as (label, value)
pairs. -/
def idxminLabel (l : List (ℕ × ℝ)) : Option ℕ :=
  match l with
  | [] => none
  | x :: xs => some ((xs.foldl idxminStep x).1)

/-- Substring test (for reasoning about the texts of raised errors):
`containsStr hay pat` holds when `pat` occurs contiguously inside `hay`. -/
def containsStr (hay pat : String) : Bool :=
  (List.range (hay.toList.length + 1)).any fun i => pat.toList.isPrefixOf (hay.toList.drop i)

/-- A pandas `DataFrame`: a list of named numeric columns. -/
abbrev DataFrame := List (String × List ℝ)

/-- Column lookup `df[k]`.  Looking up `None`, or a name that is not a
column, raises a pandas `KeyError`. -/
def getCol (df : DataFrame) : Option String → Except PyError (List ℝ)
  | none => .error .keyError
  | some k =>
    match df.find? (fun c => decide (c.1 = k)) with
    | none => .error .keyError
    | some c => .ok c.2

/-- Row count `df.shape[0]` (all columns of a `DataFrame` have equal length;
we read the first). -/
def nrows (df : DataFrame) : ℕ := (df.headD ("", [])).2.length

/-! ### The five analytical models (`_MODELS`, `isotherms.py:19`) -/

/-- The model variants of `_MODELS = ["Langmuir", "Quadratic", "BET", "Sips", "DSLF"]`. -/
inductive Model where
  | Langmuir : Model
  | Quadratic : Model
  | BET : Model
  | Sips : Model
  | DSLF : Model
deriving DecidableEq

/-- The string name of a model, as used by the source's string dispatch. -/
def Model.name : Model → String
  | .Langmuir => "Langmuir"
  | .Quadratic => "Quadratic"
  | .BET => "BET"
  | .Sips => "Sips"
  | .DSLF => "DSLF"

/-- `_MODELS` (`isotherms.py:19`). -/
def MODELS : List String := ["Langmuir", "Quadratic", "BET", "Sips", "DSLF"]

/-- The membership test `model in _MODELS` (`isotherms.py:137`), returning the
recognized variant.  Exhausts exactly the five names of `_MODELS`. -/
def parseModel (s : String) : Option Model :=
  if s = "Langmuir" then some .Langmuir
  else if s = "Quadratic" then some .Quadratic
  else if s = "BET" then some .BET
  else if s = "Sips" then some .Sips
  else if s = "DSLF" then some .DSLF
  else none

/-- The parameter dictionary `self.params`.  The source keeps a per-model
string-keyed dict (`_MODEL_PARAMS`, `isotherms.py:22-28`); here one structure
holds a field for every parameter name appearing in `_MODEL_PARAMS`, and each
model's formulas read only that model's fields. -/
structure Params where
  M : ℝ := 0
  K : ℝ := 0
  Ka : ℝ := 0
  Kb : ℝ := 0
  n : ℝ := 0
  M1 : ℝ := 0
  K1 : ℝ := 0
  n1 : ℝ := 0
  M2 : ℝ := 0
  K2 : ℝ := 0
  n2 : ℝ := 0

/-- `ModelIsotherm.loading` (`isotherms.py:176-212`): the closed-form loading
of each model at a pressure.  Python's float `**` is modelled by real
exponentiation (`Real.rpow`); `pressure ** 2` is the square.  The real-power
model agrees with float `**` on positive bases and at base `0` with a
nonnegative exponent; for `0 ** n` with `n < 0` floats overflow to
`inf`/`NaN` while `Real.rpow` yields `0`, so every theorem about these
formulas confines itself to the agreeing region (`inDomain`,
`exponentsPos`). -/
def ModelIsotherm.loading (model : Model) (params : Params) (pressure : ℝ) : ℝ :=
  match model with
  | .Langmuir =>
      params.M * params.K * pressure / (1 + params.K * pressure)
  | .Quadratic =>
      params.M * (params.Ka + 2 * params.Kb * pressure) * pressure /
        (1 + params.Ka * pressure + params.Kb * pressure ^ (2 : ℕ))
  | .BET =>
      params.M * params.Ka * pressure /
        ((1 - params.Kb * pressure) * (1 - params.Kb * pressure + params.Ka * pressure))
  | .Sips =>
      params.M * (params.K * pressure) ^ params.n /
        (1 + (params.K * pressure) ^ params.n)
  | .DSLF =>
      params.M1 * (params.K1 * pressure) ^ params.n1 /
          (1 + (params.K1 * pressure) ^ params.n1) +
        params.M2 * (params.K2 * pressure) ^ params.n2 /
          (1 + (params.K2 * pressure) ^ params.n2)

/-- `ModelIsotherm.spreading_pressure` (`isotherms.py:255-286`): the
closed-form reduced spreading pressure of each model.  The same real-power
caveat as for `ModelIsotherm.loading` applies: `0 ** n` with `n < 0` is an
overflow in floats but `0` under `Real.rpow`, so theorems restrict to the
agreeing region. -/
def ModelIsotherm.spreading_pressure (model : Model) (params : Params) (pressure : ℝ) : ℝ :=
  match model with
  | .Langmuir =>
      params.M * Real.log (1 + params.K * pressure)
  | .Quadratic =>
      params.M * Real.log (1 + params.Ka * pressure + params.Kb * pressure ^ (2 : ℕ))
  | .BET =>
      params.M * Real.log ((1 - params.Kb * pressure + params.Ka * pressure) /
        (1 - params.Kb * pressure))
  | .Sips =>
      params.M / params.n * Real.log (1 + (params.K * pressure) ^ params.n)
  | .DSLF =>
      params.M1 / params.n1 * Real.log (1 + (params.K1 * pressure) ^ params.n1) +
        params.M2 / params.n2 * Real.log (1 + (params.K2 * pressure) ^ params.n2)

/-- `get_default_guess_params` (`isotherms.py:31-74`) on the two data columns
of a frame with the default integer row labels `0, 1, …`:
`saturation_loading = 1.1 * max(loading)` (`:46`); `df_nonzero` is the frame
filtered to nonzero loadings, which KEEPS the original row labels (`:49`);
`df_nonzero[loading_key].argmin()` (`:50`) is, on the pandas versions this
Python-2 source can run on (≤ 0.19), `idxmin` and yields the row LABEL of the
first minimum-loading row — i.e. its position in the ORIGINAL frame; the
`.iloc[idx_min]` lookups of `:51-53` then apply that label POSITIONALLY to
the filtered frame, selecting a different sample whenever a zero-loading row
precedes the minimum, and raising `IndexError` when the label reaches past
the filtered frame's length.  The Langmuir-constant guess is
`L0 / P0 / (saturation_loading - P0)` (note the second denominator term
subtracts the `P0` pressure value).  The caller (`ModelIsotherm.init`) has
already validated the model name, so the source's implicit fall-through
return of `None` is unreachable and not modelled. -/
def get_default_guess_params (model : Model) (pressure_col loading_col : List ℝ) :
    Except PyError (List (String × ℝ)) :=
  let saturation_loading := 1.1 * listMax loading_col
  let rows := pressure_col.zip loading_col
  let df_nonzero := ((List.range rows.length).zip rows).filter fun r => decide (r.2.2 ≠ 0)
  match idxminLabel (df_nonzero.map fun r => (r.1, r.2.2)) with
  | none => .error .emptyArgmin
  | some idx_min =>
    if idx_min < df_nonzero.length then
      let L0 := (df_nonzero.map fun r => r.2.2).getD idx_min 0
      let P0 := (df_nonzero.map fun r => r.2.1).getD idx_min 0
      let langmuir_k := L0 / P0 / (saturation_loading - P0)
      match model with
      | .Langmuir => .ok [("M", saturation_loading), ("K", langmuir_k)]
      | .Quadratic => .ok [("M", saturation_loading / 2), ("Ka", langmuir_k),
          ("Kb", langmuir_k ^ (2 : ℝ))]
      | .BET => .ok [("M", saturation_loading), ("Ka", langmuir_k),
          ("Kb", langmuir_k * 0.01)]
      | .Sips => .ok [("M", saturation_loading), ("K", langmuir_k), ("n", 1)]
      | .DSLF => .ok [("M1", saturation_loading), ("K1", langmuir_k), ("n1", 1),
          ("M2", 0.01 * saturation_loading), ("K2", langmuir_k), ("n2", 1)]
    else .error .indexError

/-- The override loop of `ModelIsotherm.__init__` (`isotherms.py:163-168`):
each user-supplied (parameter, value) pair must name an existing parameter of
the model's guess dictionary, else the constructor raises. -/
def applyOverrides (guess : List (String × ℝ)) :
    List (String × ℝ) → Except PyError (List (String × ℝ))
  | [] => .ok guess
  | (p, v) :: rest =>
    if (guess.map Prod.fst).contains p then
      applyOverrides (guess.map fun q => if q.1 = p then (q.1, v) else q) rest
    else .error (.invalidParameterName p)

/-- The result object of `scipy.optimize.minimize`: convergence flag,
diagnostic message, minimizer `x`, and objective value (`opt_res.fun`).
The optimizer itself is external to the source and is treated as an
abstract function from the starting vector to such a result. -/
structure OptResult where
  success : Bool
  message : String
  x : List ℝ
  objective : ℝ

/-- The text of the exception raised by `ModelIsotherm._fit` on optimizer
failure (`isotherms.py:244-247`), with `%s` interpolated to the model name. -/
def fitMessage (model : String) : String :=
  "Minimization of RSS for " ++ model ++ " isotherm fitting\n            failed. Try a different starting point in the nonlinear optimization\n            by passing a dictionary of parameter guesses, param_guess, to the\n            constructor"

/-- `ModelIsotherm._fit` (`isotherms.py:214-253`): run the minimizer once from
the guess vector.  On non-convergence the source `print`s the optimizer's
diagnostic (`isotherms.py:243`) and raises with `fitMessage`; on success it
stores the fitted parameters and `rmse = sqrt(opt_res.fun / df.shape[0])`.
The first component of the result is the standard-output lines printed. -/
def ModelIsotherm.fit (model : Model) (rowCount : ℕ) (minimize : List ℝ → OptResult)
    (param_guess : List (String × ℝ)) :
    List String × Except PyError (List (String × ℝ) × ℝ) :=
  let param_names := param_guess.map Prod.fst
  let guess := param_guess.map Prod.snd
  let opt_res := minimize guess
  if opt_res.success then
    ([], .ok (param_names.zip opt_res.x, Real.sqrt (opt_res.objective / (rowCount : ℝ))))
  else
    ([opt_res.message], .error (.optimizationFailure (fitMessage model.name)))

/-- `ModelIsotherm.__init__` (`isotherms.py:115-174`): validate the model name
(`:134-139`), validate that both column names were supplied (`:147-150`),
compute the default guess (`:160-161`), apply overrides (`:163-168`), and fit
(`:174`).  Returns the printed standard output together with either the error
raised or the fitted (parameters, rmse). -/
def ModelIsotherm.init (df : DataFrame) (loading_key pressure_key : Option String)
    (model : Option String) (param_guess : Option (List (String × ℝ)))
    (minimize : List ℝ → OptResult) :
    List String × Except PyError (List (String × ℝ) × ℝ) :=
  match model with
  | none => ([], .error .missingModel)
  | some mname =>
    match parseModel mname with
    | none => ([], .error .unknownModel)
    | some m =>
      if loading_key = none ∨ pressure_key = none then ([], .error .missingColumnSpec)
      else
        match getCol df loading_key with
        | .error e => ([], .error e)
        | .ok lcol =>
          match getCol df pressure_key with
          | .error e => ([], .error e)
          | .ok pcol =>
            match get_default_guess_params m pcol lcol with
            | .error e => ([], .error e)
            | .ok default_guess =>
              match applyOverrides default_guess (param_guess.getD []) with
              | .error e => ([], .error e)
              | .ok guess => ModelIsotherm.fit m (nrows df) minimize guess

/-! ### InterpolatorIsotherm (`isotherms.py:298-451`) -/

/-- `InterpolatorIsotherm`: the stored, pressure-sorted, zero-augmented data
frame (as (pressure, loading) rows) and the optional `fill_value`. -/
structure InterpolatorIsotherm where
  df : List (ℝ × ℝ)
  fill_value : Option ℝ

/-- `self.df[self.pressure_key].max()`. -/
def InterpolatorIsotherm.maxPressure (iso : InterpolatorIsotherm) : ℝ :=
  listMax (iso.df.map Prod.fst)

/-- `self.df[self.pressure_key].min()` (the lower interpolation bound). -/
def InterpolatorIsotherm.minPressure (iso : InterpolatorIsotherm) : ℝ :=
  listMin (iso.df.map Prod.fst)

/-- Construction from rows (`isotherms.py:331-339`): prepend a synthetic
`(0, 0)` row when pressure `0` is absent, then sort ascending by pressure.
pandas' sort algorithm is unspecified on ties; insertion sort is one valid
realization. -/
def InterpolatorIsotherm.ofData (data : List (ℝ × ℝ)) (fill_value : Option ℝ) :
    InterpolatorIsotherm :=
  let data' := if (0 : ℝ) ∈ data.map Prod.fst then data else ((0 : ℝ), (0 : ℝ)) :: data
  { df := List.insertionSort (fun r s => r.1 ≤ s.1) data', fill_value := fill_value }

/-- `InterpolatorIsotherm.__init__` with column lookup (`isotherms.py:311-356`).
Order matters: `df[pressure_key]` is evaluated at `isotherms.py:333` *before*
the missing-column check of `isotherms.py:340-343`; the loading column is only
read after that check (`isotherms.py:350/353`).  The zero-augmentation and
sort act on the data rows exactly as `ofData`. -/
def InterpolatorIsotherm.init (df : DataFrame) (loading_key pressure_key : Option String)
    (fill_value : Option ℝ) : Except PyError InterpolatorIsotherm :=
  match getCol df pressure_key with
  | .error e => .error e
  | .ok pcol =>
    if loading_key = none ∨ pressure_key = none then .error .missingColumnSpec
    else
      match getCol df loading_key with
      | .error e => .error e
      | .ok lcol => .ok (InterpolatorIsotherm.ofData (pcol.zip lcol) fill_value)

/-- Slope of the chord over segment `i` of the nonzero-pressure samples:
`slope = (loadings[i+1] - loadings[i]) / (pressures[i+1] - pressures[i])`
(`isotherms.py:437-438`). -/
def segSlope (ps ls : List ℝ) (i : ℕ) : ℝ :=
  (ls.getD (i + 1) 0 - ls.getD i 0) / (ps.getD (i + 1) 0 - ps.getD i 0)

/-- The log-exact area contribution of full segment `i`, with
`intercept = loadings[i] - slope * pressures[i]`:
`slope * (pressures[i+1] - pressures[i]) + intercept * log(pressures[i+1] / pressures[i])`
(`isotherms.py:437-442`). -/
def segTerm (ps ls : List ℝ) (i : ℕ) : ℝ :=
  segSlope ps ls i * (ps.getD (i + 1) 0 - ps.getD i 0) +
    (ls.getD i 0 - segSlope ps ls i * ps.getD i 0) *
      Real.log (ps.getD (i + 1) 0 / ps.getD i 0)

/-- The area of the final partial segment, from sample `j` up to the query
pressure `P`, where `q` is `self.loading(P)`: the slope is recomputed as
`(q - loadings[j]) / (P - pressures[j])` and the same log-exact antiderivative
is applied (`isotherms.py:444-449`). -/
def tailTerm (ps ls : List ℝ) (j : ℕ) (P q : ℝ) : ℝ :=
  (q - ls.getD j 0) / (P - ps.getD j 0) * (P - ps.getD j 0) +
    (ls.getD j 0 - (q - ls.getD j 0) / (P - ps.getD j 0) * ps.getD j 0) *
      Real.log (P / ps.getD j 0)

/-- Piecewise-linear evaluation of scipy's `interp1d` on the sorted rows:
walk to the segment whose right endpoint is the first sample pressure `≥ x`
and evaluate that segment's chord. -/
def interpolate : List (ℝ × ℝ) → ℝ → ℝ
  | [], _ => 0
  | [(_, l)], _ => l
  | (p1, l1) :: (p2, l2) :: rest, x =>
    if x ≤ p2 then l1 + (l2 - l1) * (x - p1) / (p2 - p1)
    else interpolate ((p2, l2) :: rest) x

/-- `InterpolatorIsotherm.loading` (`isotherms.py:358-368`), i.e.
`self.interp1d(pressure)`: out of the data's pressure range, scipy raises its
bounds error when no `fill_value` was supplied (`isotherms.py:349-351`), and
returns `fill_value` otherwise (`isotherms.py:352-354`); in range it
interpolates linearly. -/
def InterpolatorIsotherm.loading (iso : InterpolatorIsotherm) (pressure : ℝ) :
    Except PyError ℝ :=
  if pressure < iso.minPressure ∨ iso.maxPressure < pressure then
    match iso.fill_value with
    | none => .error .outOfRange
    | some v => .ok v
  else .ok (interpolate iso.df pressure)

/-- `InterpolatorIsotherm.spreading_pressure` (`isotherms.py:370-451`):
the guard against extrapolation (`:390-411`), the nonzero-pressure samples
(`:413-417`), the Henry constant `loadings[0] / pressures[0]` (`:422`, a numpy
`IndexError` when there is no such sample), the count of sample pressures
strictly below the query (`:425`), the Henry branch (`:427-429`), and the
accumulated per-segment log-exact areas (`:430-451`). -/
def InterpolatorIsotherm.spreading_pressure (iso : InterpolatorIsotherm) (pressure : ℝ) :
    Except PyError ℝ :=
  if iso.fill_value = none ∧ iso.maxPressure < pressure then .error .outOfRange
  else
    let ps := (iso.df.filter fun r => decide (r.1 ≠ 0)).map Prod.fst
    let ls := (iso.df.filter fun r => decide (r.1 ≠ 0)).map Prod.snd
    if ps.isEmpty then .error .indexError
    else
      let henry_const := ls.getD 0 0 / ps.getD 0 0
      let n_points := ps.countP fun p => decide (p < pressure)
      if n_points = 0 then .ok (henry_const * pressure)
      else
        match iso.loading pressure with
        | .error e => .error e
        | .ok loadP =>
          let area0 := ls.getD 0 0
          let area1 := (List.range (n_points - 1)).foldl
            (fun area i => area + segTerm ps ls i) area0
          .ok (area1 + tailTerm ps ls (n_points - 1) pressure loadP)

/-! ### Spec-side and proof-layer definitions -/

/-- The exponent parameters actually used by a model are strictly positive
(trivial for the models without an exponent parameter).  This is the region
where the real-power embedding of `**` agrees with float semantics at
pressure `0`: with a zero exponent, `0 ** 0 = 1` in both; with a negative
exponent, numpy's `0.0 ** n` overflows to `inf` and the formulas produce
`NaN`, which the real-number model cannot represent. -/
def exponentsPos : Model → Params → Prop
  | .Sips, p => 0 < p.n
  | .DSLF, p => 0 < p.n1 ∧ 0 < p.n2
  | _, _ => True

/-- The domain of a model's formulas at a pressure: every denominator and
logarithm argument appearing in `loading` and `spreading_pressure` is
admissible (nonzero denominators; a positive base under the real-exponent
power; a nonzero exponent where the formulas divide by it). -/
def inDomain : Model → Params → ℝ → Prop
  | .Langmuir, p, P => 1 + p.K * P ≠ 0
  | .Quadratic, p, P => 1 + p.Ka * P + p.Kb * P ^ (2 : ℕ) ≠ 0
  | .BET, p, P => 1 - p.Kb * P ≠ 0 ∧ 1 - p.Kb * P + p.Ka * P ≠ 0
  | .Sips, p, P => 0 < p.K * P ∧ p.n ≠ 0
  | .DSLF, p, P => 0 < p.K1 * P ∧ 0 < p.K2 * P ∧ p.n1 ≠ 0 ∧ p.n2 ≠ 0

/-- The area accumulated by the loop of `isotherms.py:432-442`, in closed
form: the first segment's contribution `loadings[0]` plus the full segments
`0 .. n-2`. -/
def cumArea (ps ls : List ℝ) (n : ℕ) : ℝ :=
  ls.getD 0 0 + ∑ i ∈ Finset.range (n - 1), segTerm ps ls i

/-- The linear chord of segment `j` evaluated at `t` (the value
`interp1d` produces for `t` inside segment `j`). -/
def chord (ps ls : List ℝ) (j : ℕ) (t : ℝ) : ℝ :=
  ls.getD j 0 + segSlope ps ls j * (t - ps.getD j 0)

/-- The final-partial-segment area written with the fixed segment slope: for
`t` inside segment `j` the recomputed slope of `isotherms.py:445-446` equals
the segment slope, and `tailTerm` collapses to this expression. -/
def tailF (ps ls : List ℝ) (j : ℕ) (t : ℝ) : ℝ :=
  segSlope ps ls j * (t - ps.getD j 0) +
    (ls.getD j 0 - segSlope ps ls j * ps.getD j 0) * Real.log (t / ps.getD j 0)

end

/-! ## Helper lemmas -/

theorem le_foldl_max (l : List ℝ) (a : ℝ) : a ≤ l.foldl max a := by
  induction l generalizing a with
  | nil => exact le_rfl
  | cons c l ih => exact le_trans (le_max_left a c) (ih _)

theorem mem_le_foldl_max {x : ℝ} (l : List ℝ) (a : ℝ) (hx : x ∈ l) : x ≤ l.foldl max a := by
  induction l generalizing a with
  | nil => cases hx
  | cons c l ih =>
    rcases List.mem_cons.mp hx with rfl | hx
    · exact le_trans (le_max_right a x) (le_foldl_max l _)
    · exact ih _ hx

theorem le_listMax_of_mem {x : ℝ} {l : List ℝ} (hx : x ∈ l) : x ≤ listMax l := by
  match l, hx with
  | a :: l, hx =>
    rcases List.mem_cons.mp hx with rfl | hx
    · exact le_foldl_max l x
    · exact mem_le_foldl_max l a hx

theorem foldl_max_mem (l : List ℝ) (a : ℝ) : l.foldl max a ∈ a :: l := by
  induction l generalizing a with
  | nil => simp
  | cons c l ih =>
    rcases List.mem_cons.mp (ih (max a c)) with h | h
    · rw [List.foldl_cons, h]
      rcases max_choice a c with h' | h' <;> simp [h']
    · rw [List.foldl_cons]
      exact List.mem_cons_of_mem _ (List.mem_cons_of_mem _ h)

theorem listMax_mem {l : List ℝ} (hl : l ≠ []) : listMax l ∈ l := by
  match l, hl with
  | a :: l, _ => exact foldl_max_mem l a

theorem foldl_range_add (g : ℕ → ℝ) (c : ℝ) (m : ℕ) :
    (List.range m).foldl (fun a i => a + g i) c = c + ∑ i ∈ Finset.range m, g i := by
  induction m with
  | zero => simp
  | succ m ih =>
    rw [List.range_succ, List.foldl_append, ih, Finset.sum_range_succ, List.foldl_cons,
      List.foldl_nil, add_assoc]

/-- Evaluation of `spreading_pressure` on the Henry branch
(`isotherms.py:427-429`): no sample pressure lies strictly below the query. -/
theorem spreading_pressure_henry (iso : InterpolatorIsotherm) (P : ℝ)
    (hguard : ¬(iso.fill_value = none ∧ iso.maxPressure < P))
    (hne : iso.df.filter (fun r => decide (r.1 ≠ 0)) ≠ [])
    (hcount : ((iso.df.filter (fun r => decide (r.1 ≠ 0))).map Prod.fst).countP
      (fun p => decide (p < P)) = 0) :
    iso.spreading_pressure P =
      .ok (((iso.df.filter (fun r => decide (r.1 ≠ 0))).map Prod.snd).getD 0 0 /
        ((iso.df.filter (fun r => decide (r.1 ≠ 0))).map Prod.fst).getD 0 0 * P) := by
  rw [InterpolatorIsotherm.spreading_pressure, if_neg hguard]
  have hmapne : (iso.df.filter (fun r => decide (r.1 ≠ 0))).map Prod.fst ≠ [] := by
    intro h
    exact hne (List.map_eq_nil_iff.mp h)
  have hempty : ((iso.df.filter (fun r => decide (r.1 ≠ 0))).map Prod.fst).isEmpty = false :=
    List.isEmpty_eq_false.mpr hmapne
  simp only [hempty, Bool.false_eq_true, if_false, hcount, if_pos]

/-- Evaluation of `spreading_pressure` on the area branch
(`isotherms.py:430-451`): at least one sample pressure lies strictly below the
query, and the `loading` call succeeds with value `q`. -/
theorem spreading_pressure_area (iso : InterpolatorIsotherm) (P q : ℝ)
    (hguard : ¬(iso.fill_value = none ∧ iso.maxPressure < P))
    (hne : iso.df.filter (fun r => decide (r.1 ≠ 0)) ≠ [])
    (hcount : ((iso.df.filter (fun r => decide (r.1 ≠ 0))).map Prod.fst).countP
      (fun p => decide (p < P)) ≠ 0)
    (hload : iso.loading P = .ok q) :
    iso.spreading_pressure P =
      .ok (cumArea ((iso.df.filter (fun r => decide (r.1 ≠ 0))).map Prod.fst)
          ((iso.df.filter (fun r => decide (r.1 ≠ 0))).map Prod.snd)
          (((iso.df.filter (fun r => decide (r.1 ≠ 0))).map Prod.fst).countP
            (fun p => decide (p < P))) +
        tailTerm ((iso.df.filter (fun r => decide (r.1 ≠ 0))).map Prod.fst)
          ((iso.df.filter (fun r => decide (r.1 ≠ 0))).map Prod.snd)
          ((((iso.df.filter (fun r => decide (r.1 ≠ 0))).map Prod.fst).countP
            (fun p => decide (p < P))) - 1) P q) := by
  rw [InterpolatorIsotherm.spreading_pressure, if_neg hguard]
  have hmapne : (iso.df.filter (fun r => decide (r.1 ≠ 0))).map Prod.fst ≠ [] := by
    intro h
    exact hne (List.map_eq_nil_iff.mp h)
  have hempty : ((iso.df.filter (fun r => decide (r.1 ≠ 0))).map Prod.fst).isEmpty = false :=
    List.isEmpty_eq_false.mpr hmapne
  simp only [hempty, Bool.false_eq_true, if_false, if_neg hcount, hload]
  rw [foldl_range_add]
  rw [cumArea]

/-! ## C1 -/

/-- **C1.** For an `InterpolatorIsotherm` built from the data points
(pressure, loading) = (0,0), (1,2), (2,3), `spreading_pressure 1.5` equals
`2.5 + log 1.5` (≈ 2.9055): the Henry constant is `2/1`, exactly one sample
pressure lies strictly below `1.5`, the first-segment area is `2`, and the
final partial segment from `P = 1` to `P = 1.5` with interpolated loading
`2.5` contributes `1 × 0.5 + 1 × log 1.5`. -/
theorem C1_spreading_pressure_concrete :
    (InterpolatorIsotherm.ofData [(0, 0), (1, 2), (2, 3)] none).spreading_pressure 1.5 =
      .ok (2.5 + Real.log 1.5) := by
  have hdf : InterpolatorIsotherm.ofData [((0 : ℝ), (0 : ℝ)), (1, 2), (2, 3)] none =
      ⟨[(0, 0), (1, 2), (2, 3)], none⟩ := by
    rw [InterpolatorIsotherm.ofData]
    norm_num [List.insertionSort, List.orderedInsert]
  rw [hdf]
  have hfil : ([((0 : ℝ), (0 : ℝ)), (1, 2), (2, 3)]).filter (fun r => decide (r.1 ≠ 0)) =
      [(1, 2), (2, 3)] := by
    norm_num [List.filter]
  have hload : (InterpolatorIsotherm.mk [(0, 0), (1, 2), (2, 3)] none).loading 1.5 =
      .ok 2.5 := by
    rw [InterpolatorIsotherm.loading]
    rw [if_neg]
    · rw [interpolate]
      rw [if_neg (by norm_num)]
      rw [interpolate]
      rw [if_pos (by norm_num)]
      norm_num
    · rw [InterpolatorIsotherm.minPressure, InterpolatorIsotherm.maxPressure]
      push_neg
      constructor
      · norm_num [listMin]
      · norm_num [listMax]
  rw [spreading_pressure_area _ _ 2.5 _ _ _ hload]
  · rw [hfil]
    norm_num [cumArea, tailTerm]
    ring
  · rw [InterpolatorIsotherm.maxPressure]
    norm_num [listMax]
  · rw [hfil]
    exact List.cons_ne_nil _ _
  · rw [hfil]
    norm_num [List.countP, List.countP.go]

/-! ## C2 -/

/-- **C2.** For every `InterpolatorIsotherm` whose first nonzero-pressure
sample is `(P₁, L₁)` and every query pressure `P` with `0 ≤ P` and `P` at most
every nonzero sample pressure (so `P ≤ P₁` when the stored frame is sorted,
and the count of sample pressures strictly below `P` is zero),
`spreading_pressure P` returns exactly `h × P` with the Henry constant
`h = L₁ / P₁`. -/
theorem C2_henry_law_branch (iso : InterpolatorIsotherm) (P P1 L1 : ℝ)
    (rest : List (ℝ × ℝ))
    (hfil : iso.df.filter (fun r => decide (r.1 ≠ 0)) = (P1, L1) :: rest)
    (_hP0 : 0 ≤ P)
    (hmin : ∀ r ∈ iso.df.filter (fun r => decide (r.1 ≠ 0)), P ≤ r.1) :
    iso.spreading_pressure P = .ok (L1 / P1 * P) := by
  have hm : (P1, L1) ∈ iso.df.filter (fun r => decide (r.1 ≠ 0)) := by
    rw [hfil]
    exact List.mem_cons_self _ _
  have hguard : ¬(iso.fill_value = none ∧ iso.maxPressure < P) := by
    rintro ⟨-, hlt⟩
    have h1 : P ≤ P1 := hmin _ hm
    have h2 : P1 ≤ iso.maxPressure :=
      le_listMax_of_mem (List.mem_map_of_mem Prod.fst (List.mem_of_mem_filter hm))
    linarith
  have hne : iso.df.filter (fun r => decide (r.1 ≠ 0)) ≠ [] := by
    rw [hfil]
    exact List.cons_ne_nil _ _
  have hcount : ((iso.df.filter (fun r => decide (r.1 ≠ 0))).map Prod.fst).countP
      (fun p => decide (p < P)) = 0 := by
    rw [List.countP_eq_zero]
    intro p hp
    rcases List.mem_map.mp hp with ⟨r, hr, rfl⟩
    simpa using not_lt.mpr (hmin r hr)
  rw [spreading_pressure_henry iso P hguard hne hcount, hfil]
  simp

/-- Witness for C2 on the data (0,0), (1,2), (2,3) at query pressure 0.5. -/
theorem C2_witness :
    (InterpolatorIsotherm.ofData [(0, 0), (1, 2), (2, 3)] none).spreading_pressure 0.5 =
      .ok (2 / 1 * 0.5) := by
  have hdf : InterpolatorIsotherm.ofData [((0 : ℝ), (0 : ℝ)), (1, 2), (2, 3)] none =
      ⟨[(0, 0), (1, 2), (2, 3)], none⟩ := by
    rw [InterpolatorIsotherm.ofData]
    norm_num [List.insertionSort, List.orderedInsert]
  rw [hdf]
  apply C2_henry_law_branch _ _ 1 2 [(2, 3)]
  · norm_num [List.filter]
  · norm_num
  · norm_num [List.filter]

/-! ## C3 -/

/-- **C3 (amended).** For every `InterpolatorIsotherm` and query pressure `P`
strictly above the maximum observed pressure: with no `fill_value`, both
`loading` and `spreading_pressure` fail with the out-of-range error; with a
`fill_value`, `loading` returns exactly that value, and — provided the data
contains at least one sample at nonzero pressure — `spreading_pressure`
succeeds as well. -/
theorem C3_beyond_max_policy (iso : InterpolatorIsotherm) (P : ℝ)
    (hP : iso.maxPressure < P) :
    (iso.fill_value = none →
      iso.loading P = .error .outOfRange ∧
        iso.spreading_pressure P = .error .outOfRange)
    ∧ ∀ v, iso.fill_value = some v →
        iso.loading P = .ok v ∧
          ((∃ r ∈ iso.df, r.1 ≠ (0 : ℝ)) → ∃ y, iso.spreading_pressure P = .ok y) := by
  constructor
  · intro hnone
    constructor
    · rw [InterpolatorIsotherm.loading, if_pos (Or.inr hP), hnone]
    · rw [InterpolatorIsotherm.spreading_pressure, if_pos ⟨hnone, hP⟩]
  · intro v hv
    have hload : iso.loading P = .ok v := by
      rw [InterpolatorIsotherm.loading, if_pos (Or.inr hP), hv]
    refine ⟨hload, ?_⟩
    rintro ⟨r, hr, hr0⟩
    have hguard : ¬(iso.fill_value = none ∧ iso.maxPressure < P) := by
      rintro ⟨h0, -⟩
      rw [hv] at h0
      cases h0
    have hne : iso.df.filter (fun r => decide (r.1 ≠ 0)) ≠ [] := by
      have : r ∈ iso.df.filter (fun r => decide (r.1 ≠ 0)) := by
        rw [List.mem_filter]
        exact ⟨hr, by simpa using hr0⟩
      intro h
      rw [h] at this
      cases this
    by_cases hc : ((iso.df.filter (fun r => decide (r.1 ≠ 0))).map Prod.fst).countP
        (fun p => decide (p < P)) = 0
    · exact ⟨_, spreading_pressure_henry iso P hguard hne hc⟩
    · exact ⟨_, spreading_pressure_area iso P v hguard hne hc hload⟩

/-- C3 counterexample to the claim as stated: an `InterpolatorIsotherm` built
from two samples at pressure zero with `fill_value = 5`.  The query pressure
`1` exceeds the maximum observed pressure `0`, yet `spreading_pressure` fails
(the numpy indexing `loadings[0]` on the empty nonzero-pressure array), even
though a `fill_value` was supplied. -/
theorem C3_counterexample :
    (InterpolatorIsotherm.ofData [(0, 1), (0, 2)] (some 5)).maxPressure < 1 ∧
      (InterpolatorIsotherm.ofData [(0, 1), (0, 2)] (some 5)).spreading_pressure 1 =
        .error .indexError := by
  have hdf : InterpolatorIsotherm.ofData [((0 : ℝ), (1 : ℝ)), (0, 2)] (some 5) =
      ⟨[(0, 1), (0, 2)], some 5⟩ := by
    rw [InterpolatorIsotherm.ofData]
    norm_num [List.insertionSort, List.orderedInsert]
  rw [hdf]
  constructor
  · norm_num [InterpolatorIsotherm.maxPressure, listMax]
  · rw [InterpolatorIsotherm.spreading_pressure]
    rw [if_neg (by simp)]
    norm_num [List.filter]

/-- Witness for C3 at a concrete isotherm with `fill_value = 5`. -/
theorem C3_witness :
    (⟨[(0, 0), (1, 2)], some 5⟩ : InterpolatorIsotherm).loading 3 = .ok 5 := by
  have h := C3_beyond_max_policy (⟨[(0, 0), (1, 2)], some 5⟩ : InterpolatorIsotherm) 3
    (by norm_num [InterpolatorIsotherm.maxPressure, listMax])
  exact (h.2 5 rfl).1

/-! ## C4 -/

/-- C4 counterexample to the claim as stated: for the Sips model with
parameters `M = 2, K = 1, n = 0`, `loading 0 = 1 ≠ 0` (the real power `0⁰`
is `1`, exactly as numpy's `0.0 ** 0.0`). -/
theorem C4_counterexample :
    ModelIsotherm.loading .Sips { M := 2, K := 1, n := 0 } 0 = 1 ∧ (1 : ℝ) ≠ 0 := by
  constructor
  · rw [ModelIsotherm.loading]
    norm_num [Real.rpow_zero]
  · norm_num

/-- **C4 (amended).** For every model variant and every parameter vector whose
exponent parameters are strictly positive (`n` for Sips; `n1, n2` for DSLF; no
condition for the other three models), `loading 0 = 0` and
`spreading_pressure 0 = 0`.  A zero exponent gives `0⁰ = 1` and refutes the
original claim (`C4_counterexample`); a negative exponent leaves the float
program at `0 ** n = inf` and the formulas at `NaN`, outside the region where
the real-number embedding is faithful, so it is excluded as well. -/
theorem C4_zero_pressure (m : Model) (p : Params) (h : exponentsPos m p) :
    ModelIsotherm.loading m p 0 = 0 ∧ ModelIsotherm.spreading_pressure m p 0 = 0 := by
  cases m with
  | Langmuir =>
    constructor <;> simp [ModelIsotherm.loading, ModelIsotherm.spreading_pressure]
  | Quadratic =>
    constructor <;> simp [ModelIsotherm.loading, ModelIsotherm.spreading_pressure]
  | BET =>
    constructor <;> simp [ModelIsotherm.loading, ModelIsotherm.spreading_pressure]
  | Sips =>
    rw [exponentsPos] at h
    constructor <;>
      simp [ModelIsotherm.loading, ModelIsotherm.spreading_pressure, Real.zero_rpow h.ne']
  | DSLF =>
    rw [exponentsPos] at h
    constructor <;>
      simp [ModelIsotherm.loading, ModelIsotherm.spreading_pressure,
        Real.zero_rpow h.1.ne', Real.zero_rpow h.2.ne']

/-- Witness for C4 on the Sips model with exponent `n = 3`. -/
theorem C4_witness :
    ModelIsotherm.loading .Sips { M := 2, K := 1, n := 3 } 0 = 0 ∧
      ModelIsotherm.spreading_pressure .Sips { M := 2, K := 1, n := 3 } 0 = 0 :=
  C4_zero_pressure .Sips { M := 2, K := 1, n := 3 } (by norm_num [exponentsPos])

/-! ## C9 -/

/-- **C9.** Missing-column behavior at a concrete frame with columns "L", "P":
`ModelIsotherm` construction with either column name unsupplied fails with the
missing-column error (the check at `isotherms.py:147-150` runs before any
column access); `InterpolatorIsotherm` construction with the loading column
name unsupplied fails with the missing-column error, but with the pressure
column name unsupplied it fails with a pandas `KeyError` instead, because
`df[pressure_key]` (`isotherms.py:333`) is evaluated before the check at
`isotherms.py:340-343`. -/
theorem C9_missing_column_spec :
    ModelIsotherm.init [("L", [1, 2]), ("P", [0.5, 1])] (some "L") none (some "Langmuir")
        none (fun g => ⟨true, "", g, 0⟩) = ([], .error .missingColumnSpec) ∧
      ModelIsotherm.init [("L", [1, 2]), ("P", [0.5, 1])] none (some "P") (some "Langmuir")
        none (fun g => ⟨true, "", g, 0⟩) = ([], .error .missingColumnSpec) ∧
      InterpolatorIsotherm.init [("L", [1, 2]), ("P", [0.5, 1])] none (some "P") none =
        .error .missingColumnSpec ∧
      InterpolatorIsotherm.init [("L", [1, 2]), ("P", [0.5, 1])] (some "L") none none =
        .error .keyError :=
  ⟨rfl, rfl, rfl, rfl⟩

/-! ## C10 -/

/-- **C10.** If every loading value of the data is zero (and the model name
and both column names are valid), `ModelIsotherm` construction fails with the
pandas `argmin`-of-empty-sequence error, independently of the minimizer (so
before any fitting attempt), and this error is none of the documented error
kinds. -/
theorem C10_all_zero_loading (df : DataFrame) (lk pk mname : String) (m : Model)
    (hm : parseModel mname = some m)
    (pg : Option (List (String × ℝ))) (minimize : List ℝ → OptResult)
    (lcol pcol : List ℝ)
    (hl : getCol df (some lk) = .ok lcol)
    (hp : getCol df (some pk) = .ok pcol)
    (hz : ∀ l ∈ lcol, l = 0) :
    ModelIsotherm.init df (some lk) (some pk) (some mname) pg minimize =
        ([], .error .emptyArgmin) ∧
      PyError.emptyArgmin ≠ .missingModel ∧
      PyError.emptyArgmin ≠ .unknownModel ∧
      PyError.emptyArgmin ≠ .missingColumnSpec ∧
      PyError.emptyArgmin ≠ .outOfRange ∧
      (∀ s, PyError.emptyArgmin ≠ .invalidParameterName s) ∧
      (∀ s, PyError.emptyArgmin ≠ .optimizationFailure s) := by
  refine ⟨?_, by simp, by simp, by simp, by simp, by simp, by simp⟩
  have hg : get_default_guess_params m pcol lcol = .error .emptyArgmin := by
    have hfil : (((List.range (pcol.zip lcol).length).zip (pcol.zip lcol)).filter
        fun r => decide (r.2.2 ≠ 0)) = [] := by
      rw [List.filter_eq_nil_iff]
      intro r hr
      have h2 : r.2 ∈ pcol.zip lcol := (List.of_mem_zip (show (r.1, r.2) ∈ _ from hr)).2
      have h3 : r.2.2 ∈ lcol := (List.of_mem_zip (show (r.2.1, r.2.2) ∈ _ from h2)).2
      simp [hz r.2.2 h3]
    rw [get_default_guess_params, hfil]
    rfl
  rw [ModelIsotherm.init]
  simp only [hm, hl, hp, hg]
  rw [if_neg (by simp)]

/-- Witness for C10 on a concrete frame whose loading column is all zeros. -/
theorem C10_witness :
    ModelIsotherm.init [("L", [0, 0]), ("P", [1, 2])] (some "L") (some "P")
      (some "Langmuir") none (fun g => ⟨true, "", g, 0⟩) = ([], .error .emptyArgmin) :=
  (C10_all_zero_loading [("L", [0, 0]), ("P", [1, 2])] "L" "P" "Langmuir" .Langmuir rfl
    none (fun g => ⟨true, "", g, 0⟩) [0, 0] [1, 2] rfl rfl (by simp)).1

/-! ## C8 -/

set_option maxRecDepth 4000 in
/-- C8 counterexample to the claim as stated: with a minimizer reporting
non-convergence with diagnostic "simplex collapse", construction fails, but
the diagnostic appears only on standard output — the raised error's message
(`fitMessage`) does not contain it. -/
theorem C8_counterexample :
    ModelIsotherm.init [("L", [1]), ("P", [1])] (some "L") (some "P") (some "Langmuir")
        none (fun g => ⟨false, "simplex collapse", g, 0⟩) =
      (["simplex collapse"], .error (.optimizationFailure (fitMessage "Langmuir"))) ∧
      containsStr (fitMessage "Langmuir") "simplex collapse" = false := by
  constructor
  · have hg : get_default_guess_params Model.Langmuir [1] [1] =
        .ok [("M", (1.1 : ℝ)), ("K", 1 / 1 / (1.1 - 1))] := by
      rw [get_default_guess_params]
      norm_num [List.filter, idxminLabel, idxminStep, listMax, List.zip,
        List.range_succ, List.range_zero]
    rw [ModelIsotherm.init]
    have hpm : parseModel "Langmuir" = some Model.Langmuir := rfl
    simp only [hpm]
    rw [if_neg (by simp)]
    have hcl : getCol [("L", [(1 : ℝ)]), ("P", [(1 : ℝ)])] (some "L") = .ok [1] := rfl
    have hcp : getCol [("L", [(1 : ℝ)]), ("P", [(1 : ℝ)])] (some "P") = .ok [1] := rfl
    simp only [hcl, hcp, hg, Option.getD_none, applyOverrides, ModelIsotherm.fit, Model.name]
    simp
  · decide

set_option maxRecDepth 4000 in
/-- **C8 (amended).** When the minimizer reports non-convergence,
`ModelIsotherm` construction fails with the optimization-failure error whose
message is the fixed remediation text of `isotherms.py:244-247` (it suggests
passing an explicit `param_guess`); the minimizer's diagnostic message is
printed to standard output, not included in the error; the failure is fatal,
with the single minimizer invocation never retried. -/
theorem C8_optimization_failure (df : DataFrame) (lk pk mname : String) (m : Model)
    (hm : parseModel mname = some m)
    (pg : Option (List (String × ℝ))) (minimize : List ℝ → OptResult)
    (lcol pcol : List ℝ) (g g' : List (String × ℝ))
    (hl : getCol df (some lk) = .ok lcol)
    (hp : getCol df (some pk) = .ok pcol)
    (hg : get_default_guess_params m pcol lcol = .ok g)
    (ho : applyOverrides g (pg.getD []) = .ok g')
    (hfail : (minimize (g'.map Prod.snd)).success = false) :
    ModelIsotherm.init df (some lk) (some pk) (some mname) pg minimize =
        ([(minimize (g'.map Prod.snd)).message],
          .error (.optimizationFailure (fitMessage m.name))) ∧
      containsStr (fitMessage m.name) "param_guess" = true := by
  constructor
  · rw [ModelIsotherm.init]
    simp only [hm]
    rw [if_neg (by simp)]
    simp only [hl, hp, hg, ho, ModelIsotherm.fit, hfail]
    simp
  · cases m <;> decide

set_option maxRecDepth 4000 in
/-- Witness for C8 on a concrete frame and a concrete non-converging
minimizer. -/
theorem C8_witness :
    ModelIsotherm.init [("L", [1]), ("P", [2])] (some "L") (some "P") (some "Sips")
        none (fun g => ⟨false, "maxiter exceeded", g, 0⟩) =
      (["maxiter exceeded"], .error (.optimizationFailure (fitMessage "Sips"))) ∧
      containsStr (fitMessage "Sips") "param_guess" = true := by
  have h := C8_optimization_failure [("L", [1]), ("P", [2])] "L" "P" "Sips" .Sips rfl
    none (fun g => ⟨false, "maxiter exceeded", g, 0⟩) [1] [2]
    [("M", (1.1 : ℝ)), ("K", 1 / 2 / (1.1 - 2)), ("n", 1)]
    [("M", (1.1 : ℝ)), ("K", 1 / 2 / (1.1 - 2)), ("n", 1)]
    rfl rfl
    (by rw [get_default_guess_params]
        norm_num [List.filter, idxminLabel, idxminStep, listMax, List.zip,
          List.range_succ, List.range_zero])
    rfl rfl
  exact h

/-! ## C6 -/

/-- **C6 (code-bug exhibit).** On pressures `[0, 1, 2]` and loadings
`[0, 2, 3]` — a zero-loading row preceding the minimum — the program's seed is
built from the sample `(2, 3)` at position 1 of the filtered frame (the
`idxmin` row LABEL `1` of the minimum-loading sample `(1, 2)`, misapplied
positionally by `.iloc`), not from the minimum-loading sample `(1, 2)` the
claim (and the source's own comment at `isotherms.py:47-48`) prescribes: the
two resulting Langmuir constants differ.  On pressures `[0, 1]` and loadings
`[0, 5]` the label `1` reaches past the one-row filtered frame, and the
computation raises `IndexError`. -/
theorem C6_idxmin_iloc_mismatch :
    get_default_guess_params .Langmuir [0, 1, 2] [0, 2, 3] =
      .ok [("M", (1.1 : ℝ) * 3), ("K", 3 / 2 / (1.1 * 3 - 2))] ∧
      (3 : ℝ) / 2 / (1.1 * 3 - 2) ≠ 2 / 1 / (1.1 * 3 - 1) ∧
      get_default_guess_params .Langmuir [0, 1] [0, 5] = .error .indexError := by
  refine ⟨?_, by norm_num, ?_⟩
  · rw [get_default_guess_params]
    norm_num [List.zip, List.filter, List.range_succ, idxminLabel, idxminStep, listMax]
  · rw [get_default_guess_params]
    norm_num [List.zip, List.filter, List.range_succ, idxminLabel, idxminStep, listMax]

/-! ## C5 -/

/-- **C5.** For every model variant, every parameter vector, and every
pressure `P > 0` in the formulas' domain (`inDomain`), the derivative of
`spreading_pressure` with respect to pressure at `P` equals
`loading P / P`: each model's spreading pressure is the antiderivative of
`loading/P` vanishing at `0`. -/
theorem C5_spreading_pressure_antideriv (m : Model) (p : Params) (P : ℝ)
    (hP : 0 < P) (hdom : inDomain m p P) :
    HasDerivAt (fun x => ModelIsotherm.spreading_pressure m p x)
      (ModelIsotherm.loading m p P / P) P := by
  cases m with
  | Langmuir =>
    rw [inDomain] at hdom
    have h1 : HasDerivAt (fun x : ℝ => 1 + p.K * x) p.K P := by
      simpa using ((hasDerivAt_id P).const_mul p.K).const_add 1
    have h2 := (h1.log hdom).const_mul p.M
    simp only [ModelIsotherm.spreading_pressure, ModelIsotherm.loading]
    convert h2 using 1
    field_simp
    ring
  | Quadratic =>
    rw [inDomain] at hdom
    have hx2 : HasDerivAt (fun x : ℝ => x ^ (2 : ℕ)) (2 * P) P := by
      simpa using hasDerivAt_pow 2 P
    have hKa : HasDerivAt (fun x : ℝ => p.Ka * x) p.Ka P := by
      simpa using (hasDerivAt_id P).const_mul p.Ka
    have h1 : HasDerivAt (fun x : ℝ => 1 + p.Ka * x + p.Kb * x ^ (2 : ℕ))
        (p.Ka + p.Kb * (2 * P)) P :=
      (hKa.const_add 1).add (hx2.const_mul p.Kb)
    have h2 := (h1.log hdom).const_mul p.M
    simp only [ModelIsotherm.spreading_pressure, ModelIsotherm.loading]
    convert h2 using 1
    field_simp
    ring
  | BET =>
    rw [inDomain] at hdom
    obtain ⟨hv, hu⟩ := hdom
    have hdv : HasDerivAt (fun x : ℝ => 1 - p.Kb * x) (-p.Kb) P := by
      simpa using ((hasDerivAt_id P).const_mul p.Kb).const_sub 1
    have hKa : HasDerivAt (fun x : ℝ => p.Ka * x) p.Ka P := by
      simpa using (hasDerivAt_id P).const_mul p.Ka
    have hdu : HasDerivAt (fun x : ℝ => 1 - p.Kb * x + p.Ka * x) (-p.Kb + p.Ka) P :=
      hdv.add hKa
    have hq := hdu.div hdv hv
    have h2 := (hq.log (div_ne_zero hu hv)).const_mul p.M
    simp only [ModelIsotherm.spreading_pressure, ModelIsotherm.loading]
    convert h2 using 1
    field_simp
    ring
  | Sips =>
    rw [inDomain] at hdom
    obtain ⟨hKP, hn⟩ := hdom
    have hKx : HasDerivAt (fun x : ℝ => p.K * x) p.K P := by
      simpa using (hasDerivAt_id P).const_mul p.K
    have hrp : HasDerivAt (fun x : ℝ => (p.K * x) ^ p.n)
        (p.n * (p.K * P) ^ (p.n - 1) * p.K) P := by
      have h := Real.hasDerivAt_rpow_const (x := p.K * P) (p := p.n) (Or.inl hKP.ne')
      exact h.comp P hKx
    have hpos : (0 : ℝ) < 1 + (p.K * P) ^ p.n := by
      have := Real.rpow_pos_of_pos hKP p.n
      linarith
    have h2 := ((hrp.const_add 1).log hpos.ne').const_mul (p.M / p.n)
    simp only [ModelIsotherm.spreading_pressure, ModelIsotherm.loading]
    convert h2 using 1
    rw [Real.rpow_sub hKP, Real.rpow_one]
    have hKP' : p.K * P ≠ 0 := hKP.ne'
    field_simp
    ring
  | DSLF =>
    rw [inDomain] at hdom
    obtain ⟨hKP1, hKP2, hn1, hn2⟩ := hdom
    have hKx1 : HasDerivAt (fun x : ℝ => p.K1 * x) p.K1 P := by
      simpa using (hasDerivAt_id P).const_mul p.K1
    have hKx2 : HasDerivAt (fun x : ℝ => p.K2 * x) p.K2 P := by
      simpa using (hasDerivAt_id P).const_mul p.K2
    have hrp1 : HasDerivAt (fun x : ℝ => (p.K1 * x) ^ p.n1)
        (p.n1 * (p.K1 * P) ^ (p.n1 - 1) * p.K1) P :=
      (Real.hasDerivAt_rpow_const (x := p.K1 * P) (p := p.n1) (Or.inl hKP1.ne')).comp P hKx1
    have hrp2 : HasDerivAt (fun x : ℝ => (p.K2 * x) ^ p.n2)
        (p.n2 * (p.K2 * P) ^ (p.n2 - 1) * p.K2) P :=
      (Real.hasDerivAt_rpow_const (x := p.K2 * P) (p := p.n2) (Or.inl hKP2.ne')).comp P hKx2
    have hpos1 : (0 : ℝ) < 1 + (p.K1 * P) ^ p.n1 := by
      have := Real.rpow_pos_of_pos hKP1 p.n1
      linarith
    have hpos2 : (0 : ℝ) < 1 + (p.K2 * P) ^ p.n2 := by
      have := Real.rpow_pos_of_pos hKP2 p.n2
      linarith
    have h1 := ((hrp1.const_add 1).log hpos1.ne').const_mul (p.M1 / p.n1)
    have h2 := ((hrp2.const_add 1).log hpos2.ne').const_mul (p.M2 / p.n2)
    simp only [ModelIsotherm.spreading_pressure, ModelIsotherm.loading]
    convert h1.add h2 using 1
    rw [Real.rpow_sub hKP1, Real.rpow_one, Real.rpow_sub hKP2, Real.rpow_one]
    have hKP1' : p.K1 * P ≠ 0 := hKP1.ne'
    have hKP2' : p.K2 * P ≠ 0 := hKP2.ne'
    field_simp
    ring

/-- Witness for C5 on the Langmuir model with `M = K = 1` at `P = 1`. -/
theorem C5_witness :
    HasDerivAt (fun x => ModelIsotherm.spreading_pressure .Langmuir { M := 1, K := 1 } x)
      (ModelIsotherm.loading .Langmuir { M := 1, K := 1 } 1 / 1) 1 :=
  C5_spreading_pressure_antideriv .Langmuir { M := 1, K := 1 } 1 (by norm_num)
    (by rw [inDomain]; norm_num)

/-! ## C7 -/

/-- Positivity of the log-exact segment integral: if the line `m·t + b` is
positive at both ends of `[x, y] ⊆ (0, ∞)`, then
`∫ₓʸ (m·t + b)/t dt = m(y−x) + b·log(y/x) > 0`. -/
theorem segPos (m b x y : ℝ) (hx : 0 < x) (hxy : x < y)
    (hqx : 0 < m * x + b) (hqy : 0 < m * y + b) :
    0 < m * (y - x) + b * Real.log (y / x) := by
  have hy : 0 < y := hx.trans hxy
  have hyx1 : 1 < y / x := (one_lt_div hx).mpr hxy
  have hlogpos : 0 < Real.log (y / x) := Real.log_pos hyx1
  rcases lt_trichotomy m 0 with hm | hm | hm
  · have hb : -(m * y) < b := by linarith
    have hup : 1 - x / y < Real.log (y / x) := by
      have h1 : Real.log (x / y) < x / y - 1 :=
        Real.log_lt_sub_one_of_pos (div_pos hx hy) (by
          intro h
          rw [div_eq_one_iff_eq hy.ne'] at h
          exact hxy.ne h)
      have h2 : Real.log (y / x) = -Real.log (x / y) := by
        rw [← Real.log_inv, inv_div]
      rw [h2]
      linarith
    have hq : (-(m * y)) * (1 - x / y) < b * Real.log (y / x) := by
      have h0 : (0 : ℝ) < -(m * y) := by nlinarith
      have h1 : (0 : ℝ) < 1 - x / y := by
        have : x / y < 1 := (div_lt_one hy).mpr hxy
        linarith
      calc (-(m * y)) * (1 - x / y) < b * (1 - x / y) := mul_lt_mul_of_pos_right hb h1
        _ < b * Real.log (y / x) := by
            have hbpos : (0 : ℝ) < b := by linarith
            exact (mul_lt_mul_left hbpos).mpr hup
    have hid : m * (y - x) + (-(m * y)) * (1 - x / y) = 0 := by
      field_simp
      ring
    linarith
  · subst hm
    have h1 : (0 : ℝ) < b := by linarith [hqx]
    have : (0 : ℝ) < b * Real.log (y / x) := mul_pos h1 hlogpos
    linarith [this]
  · have hb : -(m * x) < b := by linarith
    have hlt : Real.log (y / x) < y / x - 1 :=
      Real.log_lt_sub_one_of_pos (div_pos hy hx) hyx1.ne'
    have hq : (-(m * x)) * (y / x - 1) < b * Real.log (y / x) := by
      calc (-(m * x)) * (y / x - 1) < (-(m * x)) * Real.log (y / x) :=
            mul_lt_mul_of_neg_left hlt (by nlinarith)
        _ < b * Real.log (y / x) := mul_lt_mul_of_pos_right hb hlogpos
    have hid : m * (y - x) + (-(m * x)) * (y / x - 1) = 0 := by
      field_simp
      ring
    linarith

/-- The chord between two samples with positive loadings stays positive over
the segment. -/
theorem chordPos (pj pj1 lj lj1 t : ℝ) (hp : pj < pj1) (hl : 0 < lj) (hl1 : 0 < lj1)
    (ht1 : pj ≤ t) (ht2 : t ≤ pj1) :
    0 < lj + (lj1 - lj) / (pj1 - pj) * (t - pj) := by
  have hd : (0 : ℝ) < pj1 - pj := by linarith
  have key : lj + (lj1 - lj) / (pj1 - pj) * (t - pj) =
      (lj * (pj1 - t) + lj1 * (t - pj)) / (pj1 - pj) := by
    field_simp
    ring
  rw [key]
  apply div_pos ?_ hd
  rcases eq_or_lt_of_le ht1 with rfl | h
  · nlinarith
  · nlinarith

/-- Inside segment `j`, the recomputed final-segment slope equals the segment
slope, and `tailTerm` collapses to `tailF`. -/
theorem tailTerm_chord (ps ls : List ℝ) (j : ℕ) (t : ℝ) (ht : ps.getD j 0 < t) :
    tailTerm ps ls j t (chord ps ls j t) = tailF ps ls j t := by
  have hne : t - ps.getD j 0 ≠ 0 := sub_ne_zero.mpr ht.ne'
  have hA : (chord ps ls j t - ls.getD j 0) / (t - ps.getD j 0) = segSlope ps ls j := by
    rw [chord, add_sub_cancel_left, mul_div_cancel_right₀ _ hne]
  rw [tailTerm, hA, tailF]

/-- `tailF` vanishes at the left node of its segment. -/
theorem tailF_node (ps ls : List ℝ) (j : ℕ) (h : ps.getD j 0 ≠ 0) :
    tailF ps ls j (ps.getD j 0) = 0 := by
  rw [tailF, div_self h, Real.log_one]
  ring

/-- `tailF` at the right node of its segment is the full-segment area. -/
theorem tailF_right (ps ls : List ℝ) (j : ℕ) :
    tailF ps ls j (ps.getD (j + 1) 0) = segTerm ps ls j := rfl

/-- Strict monotonicity of `tailF` across a segment with positive data. -/
theorem tailF_lt (ps ls : List ℝ) (j : ℕ) (t1 t2 : ℝ)
    (hp : 0 < ps.getD j 0) (hpp : ps.getD j 0 < ps.getD (j + 1) 0)
    (hl : 0 < ls.getD j 0) (hl1 : 0 < ls.getD (j + 1) 0)
    (h1 : ps.getD j 0 ≤ t1) (h12 : t1 < t2) (h2 : t2 ≤ ps.getD (j + 1) 0) :
    tailF ps ls j t1 < tailF ps ls j t2 := by
  have ht1 : 0 < t1 := lt_of_lt_of_le hp h1
  have ht2 : 0 < t2 := ht1.trans h12
  have hq1 : 0 < segSlope ps ls j * t1 + (ls.getD j 0 - segSlope ps ls j * ps.getD j 0) := by
    have hc := chordPos (ps.getD j 0) (ps.getD (j + 1) 0) (ls.getD j 0) (ls.getD (j + 1) 0)
      t1 hpp hl hl1 h1 (h12.le.trans h2)
    rw [segSlope]
    nlinarith [hc]
  have hq2 : 0 < segSlope ps ls j * t2 + (ls.getD j 0 - segSlope ps ls j * ps.getD j 0) := by
    have hc := chordPos (ps.getD j 0) (ps.getD (j + 1) 0) (ls.getD j 0) (ls.getD (j + 1) 0)
      t2 hpp hl hl1 (h1.trans h12.le) h2
    rw [segSlope]
    nlinarith [hc]
  have hkey := segPos (segSlope ps ls j) (ls.getD j 0 - segSlope ps ls j * ps.getD j 0)
    t1 t2 ht1 h12 hq1 hq2
  rw [Real.log_div ht2.ne' ht1.ne'] at hkey
  rw [tailF, tailF, Real.log_div ht1.ne' hp.ne', Real.log_div ht2.ne' hp.ne']
  nlinarith [hkey]

/-- In a strictly increasing list, earlier entries are smaller. -/
theorem pairwise_lt_getD (l : List ℝ) (h : l.Pairwise (· < ·)) (i j : ℕ)
    (hij : i < j) (hj : j < l.length) : l.getD i 0 < l.getD j 0 := by
  have hi : i < l.length := hij.trans hj
  rw [List.getD_eq_getElem l 0 hi, List.getD_eq_getElem l 0 hj]
  exact List.pairwise_iff_getElem.mp h i j hi hj hij

theorem pairwise_le_getD (l : List ℝ) (h : l.Pairwise (· < ·)) (i j : ℕ)
    (hij : i ≤ j) (hj : j < l.length) : l.getD i 0 ≤ l.getD j 0 := by
  rcases eq_or_lt_of_le hij with rfl | h'
  · exact le_rfl
  · exact (pairwise_lt_getD l h i j h' hj).le

/-- Entries at positions below the `countP (· < P)` of a strictly increasing
list are below `P`. -/
theorem getD_lt_of_lt_countP (ps : List ℝ) (h : ps.Pairwise (· < ·)) (P : ℝ) (j : ℕ)
    (hj : j < ps.countP (fun p => decide (p < P))) : ps.getD j 0 < P := by
  induction ps generalizing j with
  | nil => simp at hj
  | cons x xs ih =>
    obtain ⟨hx, hxs⟩ := List.pairwise_cons.mp h
    rw [List.countP_cons] at hj
    by_cases hxP : x < P
    · rw [show (if (decide (x < P)) = true then 1 else 0) = 1 by simp [hxP]] at hj
      cases j with
      | zero => simpa using hxP
      | succ j =>
        rw [List.getD_cons_succ]
        exact ih hxs j (by omega)
    · have h0 : xs.countP (fun p => decide (p < P)) = 0 := by
        rw [List.countP_eq_zero]
        intro a ha
        simp only [decide_eq_true_eq]
        intro h'
        exact hxP ((hx a ha).trans h')
      rw [show (if (decide (x < P)) = true then 1 else 0) = 0 by simp [hxP]] at hj
      omega

/-- Entries at positions at or above the `countP (· < P)` of a strictly
increasing list are at or above `P`. -/
theorem le_getD_of_countP_le (ps : List ℝ) (h : ps.Pairwise (· < ·)) (P : ℝ) (j : ℕ)
    (hj1 : ps.countP (fun p => decide (p < P)) ≤ j) (hj2 : j < ps.length) :
    P ≤ ps.getD j 0 := by
  induction ps generalizing j with
  | nil => simp at hj2
  | cons x xs ih =>
    obtain ⟨hx, hxs⟩ := List.pairwise_cons.mp h
    rw [List.countP_cons] at hj1
    by_cases hxP : x < P
    · rw [show (if (decide (x < P)) = true then 1 else 0) = 1 by simp [hxP]] at hj1
      cases j with
      | zero => omega
      | succ j =>
        rw [List.getD_cons_succ]
        exact ih hxs j (by omega) (by simpa using hj2)
    · cases j with
      | zero => simpa using not_lt.mp hxP
      | succ j =>
        rw [List.getD_cons_succ]
        have hjl : j < xs.length := by simpa using hj2
        have hmem : xs.getD j 0 ∈ xs := by
          rw [List.getD_eq_getElem xs 0 hjl]
          exact List.getElem_mem hjl
        exact (not_lt.mp hxP).trans (hx _ hmem).le

theorem countP_lt_mono_query (ps : List ℝ) (x y : ℝ) (hxy : x ≤ y) :
    ps.countP (fun p => decide (p < x)) ≤ ps.countP (fun p => decide (p < y)) := by
  apply List.countP_mono_left
  intro a _
  simp only [decide_eq_true_eq]
  intro h
  exact lt_of_lt_of_le h hxy

theorem foldl_min_of_le (l : List ℝ) (a : ℝ) (h : ∀ x ∈ l, a ≤ x) : l.foldl min a = a := by
  induction l with
  | nil => rfl
  | cons c l ih =>
    rw [List.foldl_cons, min_eq_left (h c (List.mem_cons_self c l))]
    exact ih fun x hx => h x (List.mem_cons_of_mem _ hx)

/-- Correctness of the `interp1d` walk: for `t` in segment `j` of a list of
points with strictly increasing pressures, `interpolate` evaluates the chord
of that segment. -/
theorem interpolate_at_index (pts : List (ℝ × ℝ)) (hs : (pts.map Prod.fst).Pairwise (· < ·))
    (j : ℕ) (hj : j + 1 < pts.length) (t : ℝ)
    (ht1 : (pts.map Prod.fst).getD j 0 < t) (ht2 : t ≤ (pts.map Prod.fst).getD (j + 1) 0) :
    interpolate pts t = (pts.map Prod.snd).getD j 0 +
      ((pts.map Prod.snd).getD (j + 1) 0 - (pts.map Prod.snd).getD j 0) *
        (t - (pts.map Prod.fst).getD j 0) /
        ((pts.map Prod.fst).getD (j + 1) 0 - (pts.map Prod.fst).getD j 0) := by
  induction pts generalizing j with
  | nil => simp at hj
  | cons a tail ih =>
    match tail, hj with
    | b :: rest, hj =>
      cases j with
      | zero =>
        simp only [List.map_cons, List.getD_cons_zero, List.getD_cons_succ] at ht1 ht2 ⊢
        have hb : t ≤ b.1 := by simpa using ht2
        show interpolate ((a.1, a.2) :: (b.1, b.2) :: rest) t = _
        rw [interpolate, if_pos hb]
      | succ j =>
        have hblt : b.1 < t := by
          have h1 : ((a :: b :: rest).map Prod.fst).getD 1 0 ≤
              ((a :: b :: rest).map Prod.fst).getD (j + 1) 0 := by
            apply pairwise_le_getD _ hs 1 (j + 1) (by omega)
            simp only [List.length_map, List.length_cons]
            simp only [List.length_cons] at hj
            omega
          have h2 : ((a :: b :: rest).map Prod.fst).getD 1 0 = b.1 := by
            simp
          rw [h2] at h1
          exact lt_of_le_of_lt h1 ht1
        show interpolate ((a.1, a.2) :: (b.1, b.2) :: rest) t = _
        rw [interpolate, if_neg (not_le.mpr hblt)]
        have hs' : ((b :: rest).map Prod.fst).Pairwise (· < ·) := by
          rw [List.map_cons] at hs
          exact hs.of_cons
        have hj' : j + 1 < (b :: rest).length := by
          simp only [List.length_cons] at hj ⊢
          omega
        have ht1' : ((b :: rest).map Prod.fst).getD j 0 < t := by
          simpa using ht1
        have ht2' : t ≤ ((b :: rest).map Prod.fst).getD (j + 1) 0 := by
          simpa using ht2
        have := ih hs' j hj' ht1' ht2'
        simpa using this

theorem filter_df_eq (iso : InterpolatorIsotherm) (rows : List (ℝ × ℝ))
    (hdf : iso.df = (0, 0) :: rows) (hppos : ∀ r ∈ rows, 0 < r.1) :
    iso.df.filter (fun r => decide (r.1 ≠ 0)) = rows := by
  rw [hdf, List.filter_cons]
  have h0 : (decide (((0 : ℝ), (0 : ℝ)).1 ≠ 0)) = false := by simp
  rw [h0]
  simp only [Bool.false_eq_true, if_false]
  rw [List.filter_eq_self]
  intro r hr
  simpa using (hppos r hr).ne'

theorem map_fst_getD_pos (rows : List (ℝ × ℝ)) (hppos : ∀ r ∈ rows, 0 < r.1) (i : ℕ)
    (hi : i < rows.length) : 0 < (rows.map Prod.fst).getD i 0 := by
  have hi' : i < (rows.map Prod.fst).length := by simpa using hi
  rw [List.getD_eq_getElem _ 0 hi', List.getElem_map]
  exact hppos _ (List.getElem_mem hi)

theorem map_snd_getD_pos (rows : List (ℝ × ℝ)) (hlpos : ∀ r ∈ rows, 0 < r.2) (i : ℕ)
    (hi : i < rows.length) : 0 < (rows.map Prod.snd).getD i 0 := by
  have hi' : i < (rows.map Prod.snd).length := by simpa using hi
  rw [List.getD_eq_getElem _ 0 hi', List.getElem_map]
  exact hlpos _ (List.getElem_mem hi)

/-- `countP` of a strictly increasing list at a query inside segment `j`. -/
theorem countP_segment (ps : List ℝ) (hs : ps.Pairwise (· < ·)) (j : ℕ) (t : ℝ)
    (hj : j + 1 < ps.length)
    (ht1 : ps.getD j 0 < t) (ht2 : t ≤ ps.getD (j + 1) 0) :
    ps.countP (fun p => decide (p < t)) = j + 1 := by
  have h1 : ¬(j + 1 < ps.countP (fun p => decide (p < t))) := fun h =>
    absurd (getD_lt_of_lt_countP ps hs t (j + 1) h) (not_lt.mpr ht2)
  have h2 : ¬(ps.countP (fun p => decide (p < t)) ≤ j) := fun h =>
    absurd (le_getD_of_countP_le ps hs t j h (by omega)) (not_le.mpr ht1)
  omega

/-- `countP` of a strictly increasing list at a query at or below the first
entry. -/
theorem countP_low (ps : List ℝ) (hs : ps.Pairwise (· < ·)) (t : ℝ)
    (ht : t ≤ ps.getD 0 0) : ps.countP (fun p => decide (p < t)) = 0 := by
  rw [List.countP_eq_zero]
  intro a ha
  simp only [decide_eq_true_eq]
  intro h'
  rcases List.mem_iff_getElem.mp ha with ⟨i, hi, rfl⟩
  have h0 : ps.getD 0 0 ≤ ps[i] := by
    have := pairwise_le_getD ps hs 0 i (Nat.zero_le i) hi
    rwa [List.getD_eq_getElem ps 0 hi] at this
  linarith

theorem getD_le_maxPressure (iso : InterpolatorIsotherm) (rows : List (ℝ × ℝ))
    (hdf : iso.df = (0, 0) :: rows) (j : ℕ) (hj : j < rows.length) :
    (rows.map Prod.fst).getD j 0 ≤ iso.maxPressure := by
  rw [InterpolatorIsotherm.maxPressure, hdf]
  apply le_listMax_of_mem
  rw [List.map_cons]
  apply List.mem_cons_of_mem
  have hj' : j < (rows.map Prod.fst).length := by simpa using hj
  rw [List.getD_eq_getElem _ 0 hj']
  exact List.getElem_mem hj'

theorem minPressure_eq_zero (iso : InterpolatorIsotherm) (rows : List (ℝ × ℝ))
    (hdf : iso.df = (0, 0) :: rows) (hppos : ∀ r ∈ rows, 0 < r.1) :
    iso.minPressure = 0 := by
  rw [InterpolatorIsotherm.minPressure, hdf, List.map_cons, listMin]
  apply foldl_min_of_le
  intro p hp
  rcases List.mem_map.mp hp with ⟨r, hr, rfl⟩
  exact (hppos r hr).le

theorem loading_on_segment (iso : InterpolatorIsotherm) (rows : List (ℝ × ℝ))
    (hdf : iso.df = (0, 0) :: rows) (hppos : ∀ r ∈ rows, 0 < r.1)
    (hsort : (rows.map Prod.fst).Pairwise (· < ·)) (j : ℕ) (t : ℝ)
    (hj : j + 1 < rows.length)
    (ht1 : (rows.map Prod.fst).getD j 0 < t)
    (ht2 : t ≤ (rows.map Prod.fst).getD (j + 1) 0)
    (hmax : t ≤ iso.maxPressure) :
    iso.loading t = .ok (chord (rows.map Prod.fst) (rows.map Prod.snd) j t) := by
  have ht0 : 0 < t := lt_of_le_of_lt (map_fst_getD_pos rows hppos j (by omega)).le ht1
  rw [InterpolatorIsotherm.loading, if_neg]
  · rw [hdf]
    have hs0 : (((0, 0) :: rows : List (ℝ × ℝ)).map Prod.fst).Pairwise (· < ·) := by
      rw [List.map_cons]
      rw [List.pairwise_cons]
      constructor
      · intro p hp
        rcases List.mem_map.mp hp with ⟨r, hr, rfl⟩
        exact hppos r hr
      · exact hsort
    have hlen : (j + 1) + 1 < ((0, 0) :: rows : List (ℝ × ℝ)).length := by
      simp only [List.length_cons]
      omega
    have ht1' : ((((0, 0) :: rows : List (ℝ × ℝ)).map Prod.fst)).getD (j + 1) 0 < t := by
      simpa using ht1
    have ht2' : t ≤ ((((0, 0) :: rows : List (ℝ × ℝ)).map Prod.fst)).getD ((j + 1) + 1) 0 := by
      simpa using ht2
    rw [interpolate_at_index ((0, 0) :: rows) hs0 (j + 1) hlen t ht1' ht2']
    simp only [List.map_cons, List.getD_cons_succ]
    rw [chord, segSlope]
    ring_nf
  · push_neg
    constructor
    · rw [minPressure_eq_zero iso rows hdf hppos]
      exact ht0.le
    · exact hmax

theorem sp_low (iso : InterpolatorIsotherm) (rows : List (ℝ × ℝ))
    (hdf : iso.df = (0, 0) :: rows) (hne : rows ≠ [])
    (hppos : ∀ r ∈ rows, 0 < r.1)
    (hsort : (rows.map Prod.fst).Pairwise (· < ·)) (t : ℝ)
    (ht : t ≤ (rows.map Prod.fst).getD 0 0) :
    iso.spreading_pressure t =
      .ok ((rows.map Prod.snd).getD 0 0 / (rows.map Prod.fst).getD 0 0 * t) := by
  have hfil := filter_df_eq iso rows hdf hppos
  have hlen0 : 0 < rows.length := List.length_pos.mpr hne
  have hguard : ¬(iso.fill_value = none ∧ iso.maxPressure < t) := by
    rintro ⟨-, hlt⟩
    have := getD_le_maxPressure iso rows hdf 0 hlen0
    linarith
  have hcnt : ((iso.df.filter (fun r => decide (r.1 ≠ 0))).map Prod.fst).countP
      (fun p => decide (p < t)) = 0 := by
    rw [hfil]
    exact countP_low _ hsort t ht
  rw [spreading_pressure_henry iso t hguard (by rw [hfil]; exact hne) hcnt, hfil]

theorem sp_on_segment (iso : InterpolatorIsotherm) (rows : List (ℝ × ℝ))
    (hdf : iso.df = (0, 0) :: rows)
    (hppos : ∀ r ∈ rows, 0 < r.1)
    (hsort : (rows.map Prod.fst).Pairwise (· < ·)) (j : ℕ) (t : ℝ)
    (hj : j + 1 < rows.length)
    (ht1 : (rows.map Prod.fst).getD j 0 < t)
    (ht2 : t ≤ (rows.map Prod.fst).getD (j + 1) 0)
    (hmax : t ≤ iso.maxPressure) :
    iso.spreading_pressure t =
      .ok (cumArea (rows.map Prod.fst) (rows.map Prod.snd) (j + 1) +
        tailF (rows.map Prod.fst) (rows.map Prod.snd) j t) := by
  have hfil := filter_df_eq iso rows hdf hppos
  have hne : rows ≠ [] := by
    intro h
    rw [h] at hj
    simp at hj
  have hguard : ¬(iso.fill_value = none ∧ iso.maxPressure < t) := by
    rintro ⟨-, hlt⟩
    linarith
  have hsort' : (rows.map Prod.fst).Pairwise (· < ·) := hsort
  have hj' : j + 1 < (rows.map Prod.fst).length := by simpa using hj
  have hcnt : ((iso.df.filter (fun r => decide (r.1 ≠ 0))).map Prod.fst).countP
      (fun p => decide (p < t)) = j + 1 := by
    rw [hfil]
    exact countP_segment _ hsort' j t hj' ht1 ht2
  have hload := loading_on_segment iso rows hdf hppos hsort j t hj ht1 ht2 hmax
  rw [spreading_pressure_area iso t _ hguard (by rw [hfil]; exact hne) (by rw [hcnt]; omega)
    hload]
  rw [hfil]
  rw [hfil] at hcnt
  rw [hcnt]
  rw [Nat.add_sub_cancel]
  rw [tailTerm_chord _ _ j t ht1]

/-- Peeling one segment off the accumulated area. -/
theorem cumArea_succ (ps ls : List ℝ) (j : ℕ) :
    cumArea ps ls (j + 2) = cumArea ps ls (j + 1) + segTerm ps ls j := by
  rw [cumArea, cumArea]
  have h2 : j + 2 - 1 = (j + 1 - 1) + 1 := by omega
  rw [h2, Finset.sum_range_succ]
  have h1 : j + 1 - 1 = j := by omega
  rw [h1, add_assoc]

theorem segTerm_pos (ps ls : List ℝ) (j : ℕ)
    (hp : 0 < ps.getD j 0) (hpp : ps.getD j 0 < ps.getD (j + 1) 0)
    (hl : 0 < ls.getD j 0) (hl1 : 0 < ls.getD (j + 1) 0) :
    0 < segTerm ps ls j := by
  rw [← tailF_right]
  calc (0 : ℝ) = tailF ps ls j (ps.getD j 0) := (tailF_node ps ls j hp.ne').symm
    _ < tailF ps ls j (ps.getD (j + 1) 0) :=
        tailF_lt ps ls j _ _ hp hpp hl hl1 le_rfl hpp le_rfl

theorem cumArea_lt (rows : List (ℝ × ℝ))
    (hppos : ∀ r ∈ rows, 0 < r.1) (hlpos : ∀ r ∈ rows, 0 < r.2)
    (hsort : (rows.map Prod.fst).Pairwise (· < ·)) (j k : ℕ)
    (hjk : j < k) (hk : k < rows.length) :
    cumArea (rows.map Prod.fst) (rows.map Prod.snd) (j + 1) <
      cumArea (rows.map Prod.fst) (rows.map Prod.snd) (k + 1) := by
  induction k with
  | zero => omega
  | succ k ih =>
    have hstep : cumArea (rows.map Prod.fst) (rows.map Prod.snd) (k + 1) <
        cumArea (rows.map Prod.fst) (rows.map Prod.snd) (k + 2) := by
      rw [cumArea_succ]
      have hpos := segTerm_pos (rows.map Prod.fst) (rows.map Prod.snd) k
        (map_fst_getD_pos rows hppos k (by omega))
        (pairwise_lt_getD _ hsort k (k + 1) (by omega) (by simpa using hk))
        (map_snd_getD_pos rows hlpos k (by omega))
        (map_snd_getD_pos rows hlpos (k + 1) (by omega))
      linarith
    rcases Nat.lt_or_ge j k with h | h
    · exact (ih h (by omega)).trans hstep
    · have : j = k := by omega
      rw [this]
      exact hstep

theorem sp_le_node (iso : InterpolatorIsotherm) (rows : List (ℝ × ℝ))
    (hdf : iso.df = (0, 0) :: rows) (hne : rows ≠ [])
    (hppos : ∀ r ∈ rows, 0 < r.1) (hlpos : ∀ r ∈ rows, 0 < r.2)
    (hsort : (rows.map Prod.fst).Pairwise (· < ·)) (k : ℕ) (hk : k < rows.length)
    (x : ℝ) (_hx0 : 0 ≤ x) (hxk : x ≤ (rows.map Prod.fst).getD k 0) :
    ∃ v, iso.spreading_pressure x = .ok v ∧
      v ≤ cumArea (rows.map Prod.fst) (rows.map Prod.snd) (k + 1) := by
  induction k with
  | zero =>
    refine ⟨_, sp_low iso rows hdf hne hppos hsort x hxk, ?_⟩
    have hp0 : 0 < (rows.map Prod.fst).getD 0 0 :=
      map_fst_getD_pos rows hppos 0 (by omega)
    have hl0 : 0 < (rows.map Prod.snd).getD 0 0 :=
      map_snd_getD_pos rows hlpos 0 (by omega)
    have hh : 0 < (rows.map Prod.snd).getD 0 0 / (rows.map Prod.fst).getD 0 0 :=
      div_pos hl0 hp0
    have h1 : (rows.map Prod.snd).getD 0 0 / (rows.map Prod.fst).getD 0 0 * x ≤
        (rows.map Prod.snd).getD 0 0 / (rows.map Prod.fst).getD 0 0 *
          (rows.map Prod.fst).getD 0 0 :=
      mul_le_mul_of_nonneg_left hxk hh.le
    rw [div_mul_cancel₀ _ hp0.ne'] at h1
    rw [cumArea]
    simpa using h1
  | succ k ih =>
    have hklen : k < rows.length := by omega
    rcases le_or_lt x ((rows.map Prod.fst).getD k 0) with h | h
    · obtain ⟨v, hv, hle⟩ := ih hklen h
      refine ⟨v, hv, hle.trans ?_⟩
      exact (cumArea_lt rows hppos hlpos hsort k (k + 1) (by omega) hk).le
    · refine ⟨_, sp_on_segment iso rows hdf hppos hsort k x (by omega) h hxk
        (le_trans hxk (getD_le_maxPressure iso rows hdf (k + 1) hk)), ?_⟩
      have htail : tailF (rows.map Prod.fst) (rows.map Prod.snd) k x ≤
          segTerm (rows.map Prod.fst) (rows.map Prod.snd) k := by
        rcases eq_or_lt_of_le hxk with heq | hlt
        · rw [heq, tailF_right]
        · rw [← tailF_right]
          exact (tailF_lt _ _ k x _
            (map_fst_getD_pos rows hppos k hklen)
            (pairwise_lt_getD _ hsort k (k + 1) (by omega) (by simpa using hk))
            (map_snd_getD_pos rows hlpos k hklen)
            (map_snd_getD_pos rows hlpos (k + 1) hk)
            h.le hlt le_rfl).le
      rw [cumArea_succ]
      linarith

/-- **C7 (amended).** For every `InterpolatorIsotherm` whose stored frame is
the synthetic zero row followed by samples at strictly increasing positive
pressures with strictly positive loadings, `spreading_pressure` is strictly
increasing over the query pressures `0 ≤ P₁ < P₂` up to the maximum observed
pressure: both evaluations succeed and the returned values strictly
increase. -/
theorem C7_spreading_pressure_strictMono (iso : InterpolatorIsotherm)
    (rows : List (ℝ × ℝ))
    (hdf : iso.df = (0, 0) :: rows) (hne : rows ≠ [])
    (hppos : ∀ r ∈ rows, 0 < r.1) (hlpos : ∀ r ∈ rows, 0 < r.2)
    (hsort : (rows.map Prod.fst).Pairwise (· < ·))
    (x y : ℝ) (hx0 : 0 ≤ x) (hxy : x < y) (hy : y ≤ iso.maxPressure) :
    ∃ a b, iso.spreading_pressure x = .ok a ∧ iso.spreading_pressure y = .ok b ∧ a < b := by
  have hy0 : 0 < y := lt_of_le_of_lt hx0 hxy
  have hlen0 : 0 < rows.length := List.length_pos.mpr hne
  have hlenmap : (rows.map Prod.fst).length = rows.length := by simp
  have hnylen : (rows.map Prod.fst).countP (fun p => decide (p < y)) < rows.length := by
    by_contra h
    have hcf : (rows.map Prod.fst).countP (fun p => decide (p < y)) =
        (rows.map Prod.fst).length := by
      have := List.countP_le_length (fun p => decide (p < y)) (l := rows.map Prod.fst)
      omega
    have hall : ∀ p ∈ rows.map Prod.fst, p < y := by
      intro p hp
      have := List.countP_eq_length.mp hcf p hp
      simpa using this
    have hmem := listMax_mem (l := iso.df.map Prod.fst) (by rw [hdf]; simp)
    rw [hdf, List.map_cons] at hmem
    rcases List.mem_cons.mp hmem with h0 | hmem'
    · rw [InterpolatorIsotherm.maxPressure, hdf, List.map_cons, h0] at hy
      norm_num at hy
      linarith
    · have hlt := hall _ hmem'
      rw [InterpolatorIsotherm.maxPressure, hdf, List.map_cons] at hy
      linarith
  cases hn : (rows.map Prod.fst).countP (fun p => decide (p < y)) with
  | zero =>
    have hyle : y ≤ (rows.map Prod.fst).getD 0 0 :=
      le_getD_of_countP_le _ hsort y 0 (by omega) (by omega)
    have hxle : x ≤ (rows.map Prod.fst).getD 0 0 := (hxy.le.trans hyle)
    refine ⟨_, _, sp_low iso rows hdf hne hppos hsort x hxle,
      sp_low iso rows hdf hne hppos hsort y hyle, ?_⟩
    have hh : 0 < (rows.map Prod.snd).getD 0 0 / (rows.map Prod.fst).getD 0 0 :=
      div_pos (map_snd_getD_pos rows hlpos 0 hlen0) (map_fst_getD_pos rows hppos 0 hlen0)
    exact mul_lt_mul_of_pos_left hxy hh
  | succ k =>
    have hk1 : k + 1 < rows.length := by omega
    have hyk : (rows.map Prod.fst).getD k 0 < y :=
      getD_lt_of_lt_countP _ hsort y k (by omega)
    have hyk1 : y ≤ (rows.map Prod.fst).getD (k + 1) 0 :=
      le_getD_of_countP_le _ hsort y (k + 1) (by omega) (by omega)
    have hkpos : 0 < (rows.map Prod.fst).getD k 0 :=
      map_fst_getD_pos rows hppos k (by omega)
    have hkk1 : (rows.map Prod.fst).getD k 0 < (rows.map Prod.fst).getD (k + 1) 0 :=
      pairwise_lt_getD _ hsort k (k + 1) (by omega) (by omega)
    have hlk : 0 < (rows.map Prod.snd).getD k 0 :=
      map_snd_getD_pos rows hlpos k (by omega)
    have hlk1 : 0 < (rows.map Prod.snd).getD (k + 1) 0 :=
      map_snd_getD_pos rows hlpos (k + 1) hk1
    have hspy := sp_on_segment iso rows hdf hppos hsort k y hk1 hyk hyk1 hy
    rcases le_or_lt x ((rows.map Prod.fst).getD k 0) with h | h
    · obtain ⟨v, hv, hle⟩ := sp_le_node iso rows hdf hne hppos hlpos hsort k (by omega)
        x hx0 h
      refine ⟨v, _, hv, hspy, ?_⟩
      have htail : 0 < tailF (rows.map Prod.fst) (rows.map Prod.snd) k y := by
        have h0 := tailF_node (rows.map Prod.fst) (rows.map Prod.snd) k hkpos.ne'
        have := tailF_lt (rows.map Prod.fst) (rows.map Prod.snd) k _ y
          hkpos hkk1 hlk hlk1 le_rfl hyk hyk1
        linarith
      linarith
    · have hspx := sp_on_segment iso rows hdf hppos hsort k x (by omega) h
        (hxy.le.trans hyk1) (hxy.le.trans hy)
      refine ⟨_, _, hspx, hspy, ?_⟩
      have := tailF_lt (rows.map Prod.fst) (rows.map Prod.snd) k x y
        hkpos hkk1 hlk hlk1 h.le hxy hyk1
      linarith

/-- C7 counterexample to the claim as stated: the isotherm built from the
single sample (1, 0) (loading zero).  Both 0.5 < 1 lie in the valid query
range, yet `spreading_pressure` returns 0 at both, not strictly increasing. -/
theorem C7_counterexample :
    (0.5 : ℝ) < 1 ∧
      (InterpolatorIsotherm.ofData [(1, 0)] none).spreading_pressure 0.5 = .ok 0 ∧
      (InterpolatorIsotherm.ofData [(1, 0)] none).spreading_pressure 1 = .ok 0 := by
  have hdf : InterpolatorIsotherm.ofData [((1 : ℝ), (0 : ℝ))] none =
      ⟨[(0, 0), (1, 0)], none⟩ := by
    rw [InterpolatorIsotherm.ofData]
    norm_num [List.insertionSort, List.orderedInsert]
  refine ⟨by norm_num, ?_, ?_⟩ <;> rw [hdf]
  · rw [spreading_pressure_henry _ _ (by norm_num [InterpolatorIsotherm.maxPressure, listMax])
      (by norm_num [List.filter]) ?_]
    · norm_num [List.filter]
    · norm_num [List.filter, List.countP, List.countP.go]
  · rw [spreading_pressure_henry _ _ (by norm_num [InterpolatorIsotherm.maxPressure, listMax])
      (by norm_num [List.filter]) ?_]
    · norm_num [List.filter]
    · norm_num [List.filter, List.countP, List.countP.go]

/-- Witness for C7 on the data (0,0), (1,2), (2,3) at query pressures
0.5 < 1.5. -/
theorem C7_witness :
    ∃ a b, (⟨[(0, 0), (1, 2), (2, 3)], none⟩ : InterpolatorIsotherm).spreading_pressure 0.5 =
        .ok a ∧
      (⟨[(0, 0), (1, 2), (2, 3)], none⟩ : InterpolatorIsotherm).spreading_pressure 1.5 =
        .ok b ∧ a < b :=
  C7_spreading_pressure_strictMono ⟨[(0, 0), (1, 2), (2, 3)], none⟩ [(1, 2), (2, 3)]
    rfl (by simp) (by norm_num) (by norm_num)
    (by norm_num [List.pairwise_cons]) 0.5 1.5 (by norm_num) (by norm_num)
    (by norm_num [InterpolatorIsotherm.maxPressure, listMax])
